import Mathlib

/-!
Shallow embedding of the trajectory shortcutting and retiming engine of
`motion_planners/tkinter/smooth.py` (functions `find_lower_bound`,
`get_curve_collision_fn`, `smooth_curve`), together with theorems settling
the specification claims about it.

Numeric values are modelled by `ℚ`.  External collaborators of the engine
(the ramp solver, the multi-polynomial solver, scipy's spline constructor,
`trim`/`append`) are oracles bundled in an `Externals` structure; per-iteration
randomness and the wall-clock budget are an explicit list of `IterEnv`
records (one per loop iteration of `for iteration in range(num)`).
-/

/-- A configuration: a point of the d-dimensional rational vector space. -/
abbrev Cfg : Type := List ℚ

/-- Per-dimension caps (velocity or acceleration limits). -/
abbrev Caps : Type := List ℚ

/-- Modelled from the spec (sections 3 and 4.2): a `Curve` of
`motion_planners` is a scipy piecewise-polynomial object; the code of the
curve class is not under `src/`.  We keep exactly the observables
`smooth.py` uses: the breakpoint vector `curve.x`, position evaluation
`curve(t)`, velocity evaluation `curve.derivative()(t)` / `curve(t, nu=1)`,
the external bound-check answers (whether the curve respects given velocity
or acceleration caps over an optional sub-interval, whole curve when the
endpoints are omitted), and the dense discretization samples over an
optional sub-interval (`time_discretize_curve`). -/
structure Curve where
  x : List ℚ
  pos : ℚ → Cfg
  vel : ℚ → Cfg
  velWithin : Option ℚ → Option ℚ → Caps → Bool
  accWithin : Option ℚ → Option ℚ → Caps → Bool
  samples : Option ℚ → Option ℚ → List Cfg

/-- Modelled from the spec (section 3): `spline_duration` lives in
`motion_planners/retime.py`, not under `src/`; per the spec the total
duration of a curve is `tₙ − t₀`, i.e. `curve.x[-1] - curve.x[0]`. -/
def spline_duration (c : Curve) : ℚ :=
  c.x.getLastD 0 - c.x.headD 0

/-- Modelled from the spec (section 4.2): `check_spline` lives in
`motion_planners/tkinter/limits.py`, not under `src/`.  It is the external
bound-check collaborator: it reports `true` iff the curve respects the
given velocity cap and the given acceleration cap over the given interval
(whole curve when the interval endpoints are omitted); a cap of `None`
imposes no corresponding bound.  The call site in `curve_collision_fn`
passes `a_max=None` and leaves `start_t`/`end_t` at their defaults. -/
def check_spline (c : Curve) (v_max a_max : Option Caps)
    (start_t end_t : Option ℚ) : Bool :=
  (match v_max with
   | none => true
   | some vm => c.velWithin start_t end_t vm)
  && (match a_max with
      | none => true
      | some am => c.accWithin start_t end_t am)

/-- Modelled from the spec (section 6, `discretizeCurve`):
`time_discretize_curve` lives in `motion_planners/tkinter/discretize.py`,
not under `src/`.  It returns the dense, externally-discretized sampling of
the curve over `[start_t, end_t]` (whole curve when omitted); `smooth.py`
discards the returned times and keeps the samples. -/
def time_discretize_curve (c : Curve) (start_t end_t : Option ℚ) : List Cfg :=
  c.samples start_t end_t

/-- Python truthiness of the value returned by `curve_collision_fn`:
`True` is truthy and `None` (modelled as `Option.none`) is falsy. -/
def truthy (r : Option Bool) : Bool :=
  r.getD false

/-- The sup-norm `np.linalg.norm(·, ord=INF)` of a vector: the maximum of
the absolute values of the entries (`0` for the empty vector). -/
def inf_norm (xs : List ℚ) : ℚ :=
  (xs.map abs).foldr max 0

/-- Elementwise `np.divide(xs, cap)` where a cap of `None` stands for
`np.full(d, INF)`: dividing a finite entry by `INF` yields exactly `0`. -/
def divByCap (xs : List ℚ) (cap : Option Caps) : List ℚ :=
  match cap with
  | none => xs.map (fun _ => 0)
  | some cs => List.zipWith (fun a b => a / b) xs cs

/-- `find_lower_bound` of `smooth.py` (lines 12-26): the maximum of the
sup-norm of `(x2 - x1) / v_max` and, when both boundary velocities are
supplied, the sup-norm of `(v2 - v1) / a_max`.  Python's `max` over the
nonempty list of nonnegative norms coincides with `foldr max 0`. -/
def find_lower_bound (x1 x2 : List ℚ) (v1 v2 : Option (List ℚ))
    (v_max a_max : Option Caps) : ℚ :=
  ([inf_norm (divByCap (List.zipWith (fun a b => a - b) x2 x1) v_max)]
    ++ (match v1, v2 with
        | some w1, some w2 =>
          [inf_norm (divByCap (List.zipWith (fun a b => a - b) w2 w1) a_max)]
        | _, _ => [])).foldr max 0

/-- `get_curve_collision_fn` of `smooth.py` (lines 60-75), with the closure
argument order made explicit.  Faithful details: the bound check receives
`a_max=None` (the `max_accelerations` parameter is never consulted) and no
interval (the `start_t=t0, end_t=t1` arguments are commented out in the
source), while the discretization does receive `t0, t1`; the function
returns `True` on the three infeasibility branches and falls off the end
(Python `None`) otherwise. -/
def get_curve_collision_fn (collision_fn : Cfg → Bool)
    (max_velocities max_accelerations : Option Caps)
    (curve : Option Curve) (t0 t1 : Option ℚ) : Option Bool :=
  match curve with
  | none => some true
  | some c =>
    if !(check_spline c max_velocities none none none) then some true
    else if (time_discretize_curve c t0 t1).any collision_fn then some true
    else none

/-- `get_pairs` of `motion_planners/utils.py`: consecutive pairs of a list
(modelled from the spec's knot/segment picture; `smooth.py` uses it only to
turn the knot-time vector into segment durations). -/
def get_pairs (l : List ℚ) : List (ℚ × ℚ) :=
  l.zip l.tail

/-- Line 93 of `smooth.py`: `durations = [0.] + [t2 - t1 for t1, t2 in
get_pairs(times)]` (includes the start). -/
def curve_durations (times : List ℚ) : List ℚ :=
  0 :: (get_pairs times).map (fun p => p.2 - p.1)

/-- Helper for `np.cumsum`: partial sums with accumulator. -/
def cumsumAux (acc : ℚ) : List ℚ → List ℚ
  | [] => [acc]
  | d :: ds => acc :: cumsumAux (acc + d) ds

/-- `np.cumsum`: the running partial sums of a list. -/
def cumsum : List ℚ → List ℚ
  | [] => []
  | d :: ds => cumsumAux d ds

/-- Decides whether a list of rationals is strictly increasing. -/
def strictIncB : List ℚ → Bool
  | [] => true
  | [_] => true
  | a :: b :: r => (decide (a < b)) && strictIncB (b :: r)

/-- Lines 101-102 of `smooth.py`: reorder the two sampled times so that
`t1 <= t2`. -/
def sortPair (p : ℚ × ℚ) : ℚ × ℚ :=
  if p.1 > p.2 then (p.2, p.1) else p

/-- Line 105 of `smooth.py`:
`i1 = find(lambda i: times[i] <= t1, reversed(range(len(times))))`, the
greatest knot index whose time is `<= t1`.  `find` (from
`motion_planners/utils.py`, not under `src/`) is modelled from the spec as
the first element of the sequence satisfying the test, `none` when there is
none (in which case the Python original raises). -/
def knotBefore (times : List ℚ) (t : ℚ) : Option ℕ :=
  (List.range times.length).reverse.find? (fun i => decide (times.getD i 0 ≤ t))

/-- Line 106 of `smooth.py`:
`i2 = find(lambda i: times[i] >= t2, range(len(times)))`, the least knot
index whose time is `>= t2`. -/
def knotAfter (times : List ℚ) (t : ℚ) : Option ℕ :=
  (List.range times.length).find? (fun i => decide (t ≤ times.getD i 0))

/-- One loop iteration's environment: whether the wall-clock budget was
already exhausted when the iteration began (line 90), and the two times
drawn by `np.random.uniform` (line 100). -/
structure IterEnv where
  timeUp : Bool
  t1 : ℚ
  t2 : ℚ

/-- The policy flags of `smooth_curve` (line 79): `intermediate`, `cubic`
and `refit`. -/
structure Flags where
  intermediate : Bool
  cubic : Bool
  refit : Bool

/-- Modelled from the spec (section 6): the external collaborators invoked
by `smooth_curve` whose code is not under `src/` — the boundary-value ramp
solver `solve_multivariate_ramp` and the piecewise-polynomial solver
`solve_multi_poly` (`motion_planners/parabolic.py`), scipy's
`CubicHermiteSpline` constructor, and `trim`/curve `append`
(`motion_planners/retime.py`).  Each is an arbitrary oracle: the theorems
hold for every instantiation. -/
structure Externals where
  solve_multivariate_ramp : Cfg → Cfg → Cfg → Cfg → Option Caps → Option Caps → Option ℚ
  solve_multi_poly : List ℚ → List Cfg → List Cfg → Option Caps → Option Caps → Option Curve
  cubicHermiteSpline : List ℚ → List Cfg → List Cfg → Curve
  trim : Curve → Option ℚ → Option ℚ → Curve
  appendCurves : Curve → Curve → Curve → Curve

/-- The outcome of one shortcut-loop iteration: an assertion fault
(line 107 aborts the run), a silent rejection (`continue`), or acceptance
of a new current curve (line 193). -/
inductive Outcome where
  | fault : Outcome
  | keep : Outcome
  | accept : Curve → Outcome

/-- The first component of the sorted draw (the code's `t1`). -/
def iterT1 (it : IterEnv) : ℚ :=
  (sortPair (it.t1, it.t2)).1

/-- The second component of the sorted draw (the code's `t2`). -/
def iterT2 (it : IterEnv) : ℚ :=
  (sortPair (it.t1, it.t2)).2

/-- Line 118 of `smooth.py`: the pruning lower bound `min_t`, computed by
`find_lower_bound` at the boundary states the current curve yields at
`t1` and `t2`. -/
def iterMinT (v_max a_max : Option Caps) (cur : Curve) (it : IterEnv) : ℚ :=
  find_lower_bound (cur.pos (iterT1 it)) (cur.pos (iterT2 it))
    (some (cur.vel (iterT1 it))) (some (cur.vel (iterT2 it))) v_max a_max

/-- Line 120 of `smooth.py`: `max_t = (t2 - t1) - min_improve`, the time
available for improvement. -/
def iterMaxT (min_improve : ℚ) (it : IterEnv) : ℚ :=
  (iterT2 it - iterT1 it) - min_improve

/-- Lines 131 and 151-152 of `smooth.py`: the durations spliced in place of
the removed knot range.  Without `intermediate` they are
`[t1 - times[i1], best_t, times[i2] - t2]`; with `intermediate` the middle
entry is replaced by the offsets `x - new_curve.x[0]` of the local
replacement curve's breakpoints (the source uses offsets from the start,
not successive differences). -/
def spliced_durations (intermediate : Bool) (times : List ℚ) (i1 i2 : ℕ)
    (t1 t2 best_t : ℚ) (lc : Curve) : List ℚ :=
  if intermediate then
    (t1 - times.getD i1 0)
      :: ((lc.x.drop 1).map (fun u => u - lc.x.headD 0) ++ [times.getD i2 0 - t2])
  else
    [t1 - times.getD i1 0, best_t, times.getD i2 0 - t2]

/-- Lines 154-155 of `smooth.py`:
`new_durations = np.concatenate([durations[:i1+1], spliced_durations,
durations[i2+1:]])`. -/
def new_durations (intermediate : Bool) (times : List ℚ) (i1 i2 : ℕ)
    (t1 t2 best_t : ℚ) (lc : Curve) : List ℚ :=
  (curve_durations times).take (i1 + 1)
    ++ spliced_durations intermediate times i1 i2 t1 t2 best_t lc
    ++ (curve_durations times).drop (i2 + 1)

/-- Lines 159-160 of `smooth.py`: `vals[:i1+1] + mid + vals[i2:]`. -/
def splice_list (vals mid : List Cfg) (i1 i2 : ℕ) : List Cfg :=
  vals.take (i1 + 1) ++ mid ++ vals.drop i2

/-- Lines 148-184 of `smooth.py`: assemble the spliced knot data and build
the candidate whole curve — a `CubicHermiteSpline` refit, a
`solve_multi_poly` refit (which may fail), or the `trim`/`append` assembly
when `refit` is disabled. -/
def refitCurve (E : Externals) (flags : Flags) (v_max a_max : Option Caps)
    (cur : Curve) (it : IterEnv) (i1 i2 : ℕ) (best_t : ℚ) (lc : Curve) :
    Option Curve :=
  let nt := cumsum (new_durations flags.intermediate cur.x i1 i2
    (iterT1 it) (iterT2 it) best_t lc)
  let np := splice_list (cur.x.map cur.pos)
    (if flags.intermediate then lc.x.map lc.pos
     else [cur.pos (iterT1 it), cur.pos (iterT2 it)]) i1 i2
  let nv := splice_list (cur.x.map cur.vel)
    (if flags.intermediate then lc.x.map lc.vel
     else [cur.vel (iterT1 it), cur.vel (iterT2 it)]) i1 i2
  if flags.refit then
    if flags.cubic then some (E.cubicHermiteSpline nt np nv)
    else E.solve_multi_poly nt np nv v_max a_max
  else
    some (E.appendCurves (E.trim cur none (some (iterT1 it))) lc
      (E.trim cur (some (iterT2 it)) none))

/-- One iteration of the shortcut loop of `smooth_curve` (lines 92-193),
given the current curve and the iteration's random draw.  The `assert
i1 != i2` of line 107 (and a failing `find`) yield `Outcome.fault`; every
`continue` yields `Outcome.keep`; line 193 yields `Outcome.accept`. -/
def iteration (E : Externals) (flags : Flags) (v_max a_max : Option Caps)
    (collision_fn : Cfg → Bool) (min_improve : ℚ) (cur : Curve)
    (it : IterEnv) : Outcome :=
  match knotBefore cur.x (iterT1 it), knotAfter cur.x (iterT2 it) with
  | some i1, some i2 =>
    if i1 = i2 then Outcome.fault
    else if iterMinT v_max a_max cur it ≥ iterMaxT min_improve it then
      Outcome.keep
    else
      match E.solve_multivariate_ramp (cur.pos (iterT1 it)) (cur.pos (iterT2 it))
          (cur.vel (iterT1 it)) (cur.vel (iterT2 it)) v_max a_max with
      | none => Outcome.keep
      | some best_t =>
        if best_t ≥ iterMaxT min_improve it then Outcome.keep
        else
          match E.solve_multi_poly [0, best_t]
              [cur.pos (iterT1 it), cur.pos (iterT2 it)]
              [cur.vel (iterT1 it), cur.vel (iterT2 it)] v_max a_max with
          | none => Outcome.keep
          | some lc =>
            if spline_duration lc > iterMaxT min_improve it then Outcome.keep
            else if truthy (get_curve_collision_fn collision_fn v_max a_max
                (some lc) none none) then Outcome.keep
            else
              match refitCurve E flags v_max a_max cur it i1 i2 best_t lc with
              | none => Outcome.keep
              | some nc =>
                if spline_duration nc ≥ spline_duration cur then Outcome.keep
                else if truthy (get_curve_collision_fn collision_fn v_max a_max
                    (some nc) none none) then Outcome.keep
                else Outcome.accept nc
  | _, _ => Outcome.fault

/-- The shortcut loop of `smooth_curve` (lines 89-193): run the iterations
in order, stopping early when the wall-clock budget is exhausted at the top
of an iteration (line 90), keeping or replacing the current curve, and
aborting the whole run (`none`) on an assertion fault. -/
def smoothLoop (E : Externals) (flags : Flags) (v_max a_max : Option Caps)
    (collision_fn : Cfg → Bool) (min_improve : ℚ) :
    Curve → List IterEnv → Option Curve
  | cur, [] => some cur
  | cur, it :: rest =>
    if it.timeUp then some cur
    else
      match iteration E flags v_max a_max collision_fn min_improve cur it with
      | Outcome.fault => none
      | Outcome.keep =>
        smoothLoop E flags v_max a_max collision_fn min_improve cur rest
      | Outcome.accept c =>
        smoothLoop E flags v_max a_max collision_fn min_improve c rest

/-- `smooth_curve` of `smooth.py` (lines 78-197): if the input curve
already fails the curve feasibility test, return it unchanged (lines
85-87); otherwise run the shortcut loop and return the final current
curve.  A `none` result models the run aborting with an `AssertionError`
(line 107). -/
def smooth_curve (E : Externals) (flags : Flags) (v_max a_max : Option Caps)
    (collision_fn : Cfg → Bool) (min_improve : ℚ)
    (start_positions_curve : Curve) (iters : List IterEnv) : Option Curve :=
  if truthy (get_curve_collision_fn collision_fn v_max a_max
      (some start_positions_curve) none none) then
    some start_positions_curve
  else
    smoothLoop E flags v_max a_max collision_fn min_improve
      start_positions_curve iters

/-!  Helper lemmas about folds and norms. -/

theorem foldr_max_nonneg (l : List ℚ) : 0 ≤ l.foldr max 0 := by
  induction l with
  | nil => exact le_refl 0
  | cons a l ih => exact le_trans ih (le_max_right a (l.foldr max 0))

theorem inf_norm_nonneg (xs : List ℚ) : 0 ≤ inf_norm xs :=
  foldr_max_nonneg (xs.map abs)

theorem abs_map_zipWith_div (ds cs : List ℚ) (h : ∀ c ∈ cs, 0 < c) :
    (List.zipWith (fun a b => a / b) ds cs).map abs
      = List.zipWith (fun d c => |d| / c) ds cs := by
  induction ds generalizing cs with
  | nil => simp
  | cons d ds ih =>
    cases cs with
    | nil => simp
    | cons c cs =>
      have hc : 0 < c := h c (List.mem_cons_self c cs)
      have hcs : ∀ u ∈ cs, 0 < u := fun u hu => h u (List.mem_cons_of_mem c hu)
      simp [ih cs hcs, abs_div, abs_of_pos hc]

theorem inf_norm_map_zero (l : List ℚ) :
    inf_norm (l.map (fun _ => (0 : ℚ))) = 0 := by
  induction l with
  | nil => rfl
  | cons a l ih =>
    simp only [inf_norm, List.map_cons, List.foldr_cons, abs_zero] at *
    rw [ih, max_self]

/-- The spec's formula (section 4.1): the maximum over dimensions of
`|b - a| / cap` (the spec's `|x2−x1|/vmax` and `|v2−v1|/amax`). -/
def spec_max_ratio (a b caps : List ℚ) : ℚ :=
  (List.zipWith (fun d c => |d| / c)
    (List.zipWith (fun p q => p - q) b a) caps).foldr max 0

/-- Claim C5: for boundary positions `x1, x2` with positive per-dimension
caps, `find_lower_bound` returns the maximum of the per-dimension maxima
of `|x2−x1|/vmax` and, only when both boundary velocities are supplied,
`|v2−v1|/amax`; it is a pure function of its arguments; and at
`x1=[0,0], x2=[5,0], vmax=[5,5]` with velocities omitted it returns
exactly `1`. -/
theorem find_lower_bound_spec (x1 x2 v1 v2 vm am : List ℚ)
    (hvm : ∀ c ∈ vm, 0 < c) (ham : ∀ c ∈ am, 0 < c) :
    (find_lower_bound x1 x2 (some v1) (some v2) (some vm) (some am)
       = max (spec_max_ratio x1 x2 vm) (spec_max_ratio v1 v2 am))
    ∧ find_lower_bound x1 x2 none none (some vm) (some am)
       = spec_max_ratio x1 x2 vm
    ∧ find_lower_bound [0, 0] [5, 0] none none (some [5, 5]) none = 1 := by
  have hA : inf_norm (divByCap (List.zipWith (fun a b => a - b) x2 x1) (some vm))
      = spec_max_ratio x1 x2 vm := by
    simp only [inf_norm, divByCap, spec_max_ratio]
    rw [abs_map_zipWith_div _ _ hvm]
  have hB : inf_norm (divByCap (List.zipWith (fun a b => a - b) v2 v1) (some am))
      = spec_max_ratio v1 v2 am := by
    simp only [inf_norm, divByCap, spec_max_ratio]
    rw [abs_map_zipWith_div _ _ ham]
  have hAnn : 0 ≤ spec_max_ratio x1 x2 vm := by
    rw [← hA]; exact inf_norm_nonneg _
  have hBnn : 0 ≤ spec_max_ratio v1 v2 am := by
    rw [← hB]; exact inf_norm_nonneg _
  refine ⟨?_, ?_, ?_⟩
  · simp only [find_lower_bound, List.cons_append, List.nil_append,
      List.foldr_cons, List.foldr_nil]
    rw [hA, hB, max_eq_left hBnn]
  · simp only [find_lower_bound, List.append_nil, List.foldr_cons, List.foldr_nil]
    rw [hA, max_eq_left hAnn]
  · norm_num [find_lower_bound, divByCap, inf_norm]

/-- The witness for C5 at the spec's concrete instance. -/
theorem find_lower_bound_spec_witness :
    (find_lower_bound [0, 0] [5, 0] (some [0, 0]) (some [0, 0])
        (some [5, 5]) (some [1, 1])
       = max (spec_max_ratio [0, 0] [5, 0] [5, 5])
             (spec_max_ratio [0, 0] [0, 0] [1, 1]))
    ∧ find_lower_bound [0, 0] [5, 0] none none (some [5, 5]) (some [1, 1])
       = spec_max_ratio [0, 0] [5, 0] [5, 5]
    ∧ find_lower_bound [0, 0] [5, 0] none none (some [5, 5]) none = 1 :=
  find_lower_bound_spec [0, 0] [5, 0] [0, 0] [0, 0] [5, 5] [1, 1]
    (by decide) (by decide)

/-- Claim C10: `find_lower_bound` is total in its optional caps — a `None`
cap is replaced by a per-dimension cap of `+INF`, making the corresponding
term contribute `0`; with both caps `None` the function returns `0`, for
every choice of positions and optional velocities. -/
theorem find_lower_bound_none_caps (x1 x2 : List ℚ) (v1 v2 : Option (List ℚ)) :
    find_lower_bound x1 x2 v1 v2 none none = 0 := by
  cases v1 with
  | none =>
    cases v2 with
    | none =>
      simp only [find_lower_bound, divByCap, List.append_nil, List.foldr_cons,
        List.foldr_nil, inf_norm_map_zero, max_self]
    | some w2 =>
      simp only [find_lower_bound, divByCap, List.append_nil, List.foldr_cons,
        List.foldr_nil, inf_norm_map_zero, max_self]
  | some w1 =>
    cases v2 with
    | none =>
      simp only [find_lower_bound, divByCap, List.append_nil, List.foldr_cons,
        List.foldr_nil, inf_norm_map_zero, max_self]
    | some w2 =>
      simp only [find_lower_bound, divByCap, List.cons_append, List.nil_append,
        List.foldr_cons, List.foldr_nil, inf_norm_map_zero, max_self]

/-- Claim C9: the curve feasibility test never returns `False`: its only
explicitly returned value is `True`, and otherwise it falls off the end of
the function, returning Python `None`. -/
theorem curve_collision_fn_never_false (collision_fn : Cfg → Bool)
    (vm am : Option Caps) (oc : Option Curve) (t0 t1 : Option ℚ) :
    (get_curve_collision_fn collision_fn vm am oc t0 t1 = some true
      ∨ get_curve_collision_fn collision_fn vm am oc t0 t1 = none)
    ∧ get_curve_collision_fn collision_fn vm am oc t0 t1 ≠ some false := by
  cases oc with
  | none => exact ⟨Or.inl rfl, by simp [get_curve_collision_fn]⟩
  | some c =>
    simp only [get_curve_collision_fn]
    split
    · exact ⟨Or.inl rfl, by simp⟩
    · split
      · exact ⟨Or.inl rfl, by simp⟩
      · exact ⟨Or.inr rfl, by simp⟩

/-- Follows the spec's words (section 4.2) for comparison with the code:
infeasible exactly when the curve is absent, or the curve violates the
velocity or the acceleration bounds anywhere in `[t0,t1]` (whole curve when
omitted), or some sample of the dense discretization over `[t0,t1]`
satisfies the configuration-collision predicate. -/
def spec_curve_infeasible (collision_fn : Cfg → Bool) (vm am : Option Caps)
    (curve : Option Curve) (t0 t1 : Option ℚ) : Bool :=
  match curve with
  | none => true
  | some c =>
    !(check_spline c vm am t0 t1)
      || (time_discretize_curve c t0 t1).any collision_fn

/-- Claim C4, amended: the curve feasibility test reports infeasible
exactly when the curve is absent, or the curve violates the velocity
bounds somewhere on the whole curve (the acceleration caps are never
passed to the bound check, and the `[t0,t1]` restriction applies only to
the discretization, not to the bound check), or some sample of the dense
discretization over `[t0,t1]` satisfies the collision predicate; the
`max_accelerations` argument is irrelevant. -/
theorem curve_collision_fn_amended (collision_fn : Cfg → Bool)
    (vm am : Option Caps) (oc : Option Curve) (t0 t1 : Option ℚ) :
    truthy (get_curve_collision_fn collision_fn vm am oc t0 t1)
      = match oc with
        | none => true
        | some c =>
          (match vm with
           | none => false
           | some v => ! c.velWithin none none v)
            || (time_discretize_curve c t0 t1).any collision_fn := by
  cases oc with
  | none => rfl
  | some c =>
    cases vm with
    | none =>
      simp only [get_curve_collision_fn, check_spline, Bool.true_and,
        Bool.not_true, Bool.false_or]
      cases ha : (time_discretize_curve c t0 t1).any collision_fn <;>
        simp [truthy, ha]
    | some v =>
      simp only [get_curve_collision_fn, check_spline, Bool.and_true]
      cases hv : c.velWithin none none v <;>
        cases ha : (time_discretize_curve c t0 t1).any collision_fn <;>
          simp [truthy, hv, ha]

/-- A curve whose evaluations are constantly the origin, with both bound
checks passing and an empty (hence collision-free) discretization. -/
def flatCurve (knots : List ℚ) : Curve where
  x := knots
  pos := fun _ => [0]
  vel := fun _ => [0]
  velWithin := fun _ _ _ => true
  accWithin := fun _ _ _ => true
  samples := fun _ _ => []

/-- A curve that respects the velocity bounds but violates the
acceleration bounds everywhere, with a collision-free discretization. -/
def accViolatingCurve : Curve where
  x := [0, 1]
  pos := fun _ => [0]
  vel := fun _ => [0]
  velWithin := fun _ _ _ => true
  accWithin := fun _ _ _ => false
  samples := fun _ _ => []

/-- Counterexample to claim C4 as stated: a curve that violates the
acceleration bounds is infeasible per the spec's description, yet the
code's feasibility test reports it feasible, because the call to the bound
check passes `a_max=None`. -/
theorem curve_collision_fn_acc_cex :
    truthy (get_curve_collision_fn (fun _ => false) (some [1]) (some [1])
        (some accViolatingCurve) none none) = false
    ∧ spec_curve_infeasible (fun _ => false) (some [1]) (some [1])
        (some accViolatingCurve) none none = true :=
  ⟨rfl, rfl⟩

/-!  Concrete fixtures used by witnesses and counterexamples. -/

/-- A velocity cap used by the concrete scenarios. -/
def vm0 : Option Caps := some [10]

/-- An acceleration cap used by the concrete scenarios. -/
def am0 : Option Caps := some [10]

/-- The default policy flags of `smooth_curve` with `intermediate`
disabled (`cubic=True`, `refit=True`). -/
def flags0 : Flags := { intermediate := false, cubic := true, refit := true }

/-- The default collision predicate `lambda q: False`. -/
def cfn0 : Cfg → Bool := fun _ => false

/-- A concrete current curve with knots at times `0, 1, 2, 3`. -/
def cur0 : Curve := flatCurve [0, 1, 2, 3]

/-- A concrete local replacement curve of duration `1/2`. -/
def lc0 : Curve := flatCurve [0, 1/2]

/-- A concrete refit curve of duration `2` (shorter than `cur0`). -/
def nc0 : Curve := flatCurve [0, 2]

/-- Concrete external collaborators: the ramp solver always returns the
duration `1/2`, the polynomial solver returns `lc0`, and the spline
constructor returns `nc0`. -/
def E0 : Externals where
  solve_multivariate_ramp := fun _ _ _ _ _ _ => some (1/2)
  solve_multi_poly := fun _ _ _ _ _ => some lc0
  cubicHermiteSpline := fun _ _ _ => nc0
  trim := fun c _ _ => c
  appendCurves := fun a _ _ => a

/-- An iteration whose draw is `t1 = 1` (exactly the knot at index 1) and
`t2 = 5/2` (inside the last segment). -/
def it0 : IterEnv := { timeUp := false, t1 := 1, t2 := 5/2 }

/-- An iteration whose draw is `t1 = t2 = 1`, exactly a knot time, which
makes `i1 = i2`. -/
def it6 : IterEnv := { timeUp := false, t1 := 1, t2 := 1 }

/-- A curve rejected by the velocity bound check, hence infeasible. -/
def badCurve : Curve where
  x := [0, 1]
  pos := fun _ => [0]
  vel := fun _ => [0]
  velWithin := fun _ _ _ => false
  accWithin := fun _ _ _ => true
  samples := fun _ _ => []

/-!  Inversion of an accepting iteration, and the loop invariants. -/

theorem iteration_accept_inv (E : Externals) (flags : Flags)
    (v_max a_max : Option Caps) (collision_fn : Cfg → Bool) (min_improve : ℚ)
    (cur c : Curve) (it : IterEnv)
    (h : iteration E flags v_max a_max collision_fn min_improve cur it
      = Outcome.accept c) :
    spline_duration c < spline_duration cur
    ∧ truthy (get_curve_collision_fn collision_fn v_max a_max (some c)
        none none) = false := by
  unfold iteration at h
  repeat' split at h
  all_goals
    first
      | exact Outcome.noConfusion h
      | (rename_i hdur hcol
         injection h with h
         subst h
         exact ⟨not_le.mp hdur, by simpa using hcol⟩)

theorem smoothLoop_duration_le (E : Externals) (flags : Flags)
    (v_max a_max : Option Caps) (collision_fn : Cfg → Bool) (min_improve : ℚ) :
    ∀ (iters : List IterEnv) (cur c : Curve),
      smoothLoop E flags v_max a_max collision_fn min_improve cur iters = some c →
      spline_duration c ≤ spline_duration cur := by
  intro iters
  induction iters with
  | nil =>
    intro cur c h
    simp only [smoothLoop] at h
    cases h
    exact le_refl _
  | cons it rest ih =>
    intro cur c h
    simp only [smoothLoop] at h
    split at h
    · cases h
      exact le_refl _
    · split at h
      · exact Option.noConfusion h
      · exact ih cur c h
      · rename_i nc heq
        exact le_trans (ih nc c h)
          (le_of_lt (iteration_accept_inv E flags v_max a_max collision_fn
            min_improve cur nc it heq).1)

theorem smoothLoop_feasible (E : Externals) (flags : Flags)
    (v_max a_max : Option Caps) (collision_fn : Cfg → Bool) (min_improve : ℚ) :
    ∀ (iters : List IterEnv) (cur c : Curve),
      truthy (get_curve_collision_fn collision_fn v_max a_max (some cur)
        none none) = false →
      smoothLoop E flags v_max a_max collision_fn min_improve cur iters = some c →
      truthy (get_curve_collision_fn collision_fn v_max a_max (some c)
        none none) = false := by
  intro iters
  induction iters with
  | nil =>
    intro cur c hcur h
    simp only [smoothLoop] at h
    cases h
    exact hcur
  | cons it rest ih =>
    intro cur c hcur h
    simp only [smoothLoop] at h
    split at h
    · cases h
      exact hcur
    · split at h
      · exact Option.noConfusion h
      · exact ih cur c hcur h
      · rename_i nc heq
        exact ih nc c (iteration_accept_inv E flags v_max a_max collision_fn
          min_improve cur nc it heq).2 h

/-- Claim C1: for every input curve and option setting, a successful run
of `smooth_curve` returns a curve whose total duration is at most the
input curve's duration; and within a run, an iteration accepts a candidate
only when the refit curve's duration is strictly smaller than the current
curve's, so the sequence of accepted current curves has non-increasing
duration. -/
theorem smooth_curve_duration_monotone (E : Externals) (flags : Flags)
    (v_max a_max : Option Caps) (collision_fn : Cfg → Bool) (min_improve : ℚ)
    (start : Curve) (iters : List IterEnv) (it : IterEnv) (c accepted : Curve) :
    (iteration E flags v_max a_max collision_fn min_improve start it
        = Outcome.accept accepted →
      spline_duration accepted < spline_duration start)
    ∧ (smooth_curve E flags v_max a_max collision_fn min_improve start iters
        = some c →
      spline_duration c ≤ spline_duration start) := by
  constructor
  · intro h
    exact (iteration_accept_inv E flags v_max a_max collision_fn min_improve
      start accepted it h).1
  · intro h
    unfold smooth_curve at h
    split at h
    · cases h
      exact le_refl _
    · exact smoothLoop_duration_le E flags v_max a_max collision_fn
        min_improve iters start c h

/-- The witness for C1: in the concrete accepting scenario the accepted
curve is strictly shorter, and the zero-iteration run returns a curve of
no greater duration. -/
theorem smooth_curve_duration_monotone_witness :
    spline_duration nc0 < spline_duration cur0
    ∧ spline_duration cur0 ≤ spline_duration cur0 :=
  ⟨(smooth_curve_duration_monotone E0 flags0 vm0 am0 cfn0 0 cur0 [] it0
      cur0 nc0).1 (by with_unfolding_all rfl),
   (smooth_curve_duration_monotone E0 flags0 vm0 am0 cfn0 0 cur0 [] it0
      cur0 nc0).2 (by with_unfolding_all rfl)⟩

/-- Claim C2: if the input curve passes the curve feasibility test, so
does the curve returned by `smooth_curve`; a candidate becomes the current
curve only after the feasibility test has been re-run on the whole refit
curve, so every accepted curve passes it. -/
theorem smooth_curve_preserves_feasible (E : Externals) (flags : Flags)
    (v_max a_max : Option Caps) (collision_fn : Cfg → Bool) (min_improve : ℚ)
    (start : Curve) (iters : List IterEnv) (it : IterEnv) (c accepted : Curve)
    (hfeas : truthy (get_curve_collision_fn collision_fn v_max a_max
      (some start) none none) = false) :
    (smooth_curve E flags v_max a_max collision_fn min_improve start iters
        = some c →
      truthy (get_curve_collision_fn collision_fn v_max a_max (some c)
        none none) = false)
    ∧ (iteration E flags v_max a_max collision_fn min_improve start it
        = Outcome.accept accepted →
      truthy (get_curve_collision_fn collision_fn v_max a_max (some accepted)
        none none) = false) := by
  constructor
  · intro h
    unfold smooth_curve at h
    split at h
    · rename_i hcond
      exact absurd hcond (by simp [hfeas])
    · exact smoothLoop_feasible E flags v_max a_max collision_fn min_improve
        iters start c hfeas h
  · intro h
    exact (iteration_accept_inv E flags v_max a_max collision_fn min_improve
      start accepted it h).2

/-- The witness for C2: the concrete feasible curve stays feasible through
a run, and the concretely accepted candidate passes the feasibility
test. -/
theorem smooth_curve_preserves_feasible_witness :
    truthy (get_curve_collision_fn cfn0 vm0 am0 (some cur0) none none) = false
    ∧ truthy (get_curve_collision_fn cfn0 vm0 am0 (some nc0) none none)
        = false :=
  ⟨(smooth_curve_preserves_feasible E0 flags0 vm0 am0 cfn0 0 cur0 [] it0
      cur0 nc0 (by with_unfolding_all rfl)).1 (by with_unfolding_all rfl),
   (smooth_curve_preserves_feasible E0 flags0 vm0 am0 cfn0 0 cur0 [] it0
      cur0 nc0 (by with_unfolding_all rfl)).2 (by with_unfolding_all rfl)⟩

/-- Claim C3: when the input curve fails the curve feasibility test,
`smooth_curve` returns that very curve unchanged, for every choice of the
remaining arguments. -/
theorem smooth_curve_noop_on_infeasible (E : Externals) (flags : Flags)
    (v_max a_max : Option Caps) (collision_fn : Cfg → Bool) (min_improve : ℚ)
    (start : Curve) (iters : List IterEnv)
    (h : truthy (get_curve_collision_fn collision_fn v_max a_max (some start)
      none none) = true) :
    smooth_curve E flags v_max a_max collision_fn min_improve start iters
      = some start := by
  unfold smooth_curve
  simp [h]

/-- The witness for C3: a curve failing the velocity bound check is
returned unchanged even with a nonempty iteration budget. -/
theorem smooth_curve_noop_on_infeasible_witness :
    smooth_curve E0 flags0 vm0 am0 cfn0 0 badCurve [it0] = some badCurve :=
  smooth_curve_noop_on_infeasible E0 flags0 vm0 am0 cfn0 0 badCurve [it0]
    (by with_unfolding_all rfl)

/-- Counterexample to claim C6 as stated: when the draw hits a knot time
with `t1 = t2` (here both equal to the knot time `1`), the indices satisfy
`i1 = i2` and the iteration does not discard-and-continue: the
`assert i1 != i2` of line 107 raises, so the whole run aborts instead of
returning a curve. -/
theorem equal_knot_indices_fault_cex :
    knotBefore cur0.x (iterT1 it6) = some 1
    ∧ knotAfter cur0.x (iterT2 it6) = some 1
    ∧ iteration E0 flags0 vm0 am0 cfn0 0 cur0 it6 = Outcome.fault
    ∧ smooth_curve E0 flags0 vm0 am0 cfn0 0 cur0 [it6] = none :=
  ⟨by with_unfolding_all rfl, by with_unfolding_all rfl,
   by with_unfolding_all rfl, by with_unfolding_all rfl⟩

/-- Claim C6, amended: in every iteration, when the greatest knot index
with time at most `t1` equals the least knot index with time at least
`t2`, the iteration raises an assertion fault (`assert i1 != i2`) that
aborts the run, rather than discarding the candidate and continuing. -/
theorem iteration_fault_on_equal_knots (E : Externals) (flags : Flags)
    (v_max a_max : Option Caps) (collision_fn : Cfg → Bool) (min_improve : ℚ)
    (cur : Curve) (it : IterEnv) (i : ℕ)
    (h1 : knotBefore cur.x (iterT1 it) = some i)
    (h2 : knotAfter cur.x (iterT2 it) = some i) :
    iteration E flags v_max a_max collision_fn min_improve cur it
      = Outcome.fault := by
  unfold iteration
  rw [h1, h2]
  simp

/-- The witness for the amended C6 at the concrete equal-indices draw. -/
theorem iteration_fault_on_equal_knots_witness :
    iteration E0 flags0 vm0 am0 cfn0 0 cur0 it6 = Outcome.fault :=
  iteration_fault_on_equal_knots E0 flags0 vm0 am0 cfn0 0 cur0 it6 1
    (by with_unfolding_all rfl) (by with_unfolding_all rfl)

/-- Claim C7: with `availableTime = (t2 - t1) - min_improve`, an iteration
whose lower bound is at least the available time is discarded without
invoking the ramp solver (the outcome is `keep` for every choice of the
external collaborators); otherwise the solver is invoked, and the
candidate is discarded when the solver fails or when its returned duration
is at least the available time. -/
theorem iteration_prune (flags : Flags) (v_max a_max : Option Caps)
    (collision_fn : Cfg → Bool) (min_improve : ℚ) (cur : Curve)
    (it : IterEnv) (i1 i2 : ℕ)
    (hk1 : knotBefore cur.x (iterT1 it) = some i1)
    (hk2 : knotAfter cur.x (iterT2 it) = some i2)
    (hne : i1 ≠ i2) :
    (iterMinT v_max a_max cur it ≥ iterMaxT min_improve it →
      ∀ E : Externals,
        iteration E flags v_max a_max collision_fn min_improve cur it
          = Outcome.keep)
    ∧ (∀ E : Externals,
       iterMinT v_max a_max cur it < iterMaxT min_improve it →
       E.solve_multivariate_ramp (cur.pos (iterT1 it)) (cur.pos (iterT2 it))
         (cur.vel (iterT1 it)) (cur.vel (iterT2 it)) v_max a_max = none →
       iteration E flags v_max a_max collision_fn min_improve cur it
         = Outcome.keep)
    ∧ (∀ (E : Externals) (best_t : ℚ),
       iterMinT v_max a_max cur it < iterMaxT min_improve it →
       E.solve_multivariate_ramp (cur.pos (iterT1 it)) (cur.pos (iterT2 it))
         (cur.vel (iterT1 it)) (cur.vel (iterT2 it)) v_max a_max
           = some best_t →
       best_t ≥ iterMaxT min_improve it →
       iteration E flags v_max a_max collision_fn min_improve cur it
         = Outcome.keep) := by
  refine ⟨?_, ?_, ?_⟩
  · intro hmin E
    unfold iteration
    rw [hk1, hk2]
    simp only [if_neg hne, if_pos hmin]
  · intro E hmin hsolve
    unfold iteration
    rw [hk1, hk2]
    simp only [if_neg hne, if_neg (not_le.mpr hmin), hsolve]
  · intro E best_t hmin hsolve hbt
    unfold iteration
    rw [hk1, hk2]
    simp only [if_neg hne, if_neg (not_le.mpr hmin), hsolve, if_pos hbt]

/-- Concrete external collaborators whose ramp solver fails. -/
def EFail : Externals where
  solve_multivariate_ramp := fun _ _ _ _ _ _ => none
  solve_multi_poly := fun _ _ _ _ _ => some lc0
  cubicHermiteSpline := fun _ _ _ => nc0
  trim := fun c _ _ => c
  appendCurves := fun a _ _ => a

/-- Concrete external collaborators whose ramp solver returns a duration
too large to improve the candidate window. -/
def ESlow : Externals where
  solve_multivariate_ramp := fun _ _ _ _ _ _ => some 2
  solve_multi_poly := fun _ _ _ _ _ => some lc0
  cubicHermiteSpline := fun _ _ _ => nc0
  trim := fun c _ _ => c
  appendCurves := fun a _ _ => a

/-- The witness for C7: the three discard branches at concrete inputs —
lower bound at least the available time (with `min_improve = 10`), solver
failure, and a solver duration of `2` at least the available `3/2`. -/
theorem iteration_prune_witness :
    iteration E0 flags0 vm0 am0 cfn0 10 cur0 it0 = Outcome.keep
    ∧ iteration EFail flags0 vm0 am0 cfn0 0 cur0 it0 = Outcome.keep
    ∧ iteration ESlow flags0 vm0 am0 cfn0 0 cur0 it0 = Outcome.keep := by
  have hmin0 : iterMinT vm0 am0 cur0 it0 = 0 := by with_unfolding_all rfl
  have hmax10 : iterMaxT 10 it0 = -17/2 := by with_unfolding_all rfl
  have hmax0 : iterMaxT 0 it0 = 3/2 := by with_unfolding_all rfl
  refine ⟨?_, ?_, ?_⟩
  · exact (iteration_prune flags0 vm0 am0 cfn0 10 cur0 it0 1 3
      (by with_unfolding_all rfl) (by with_unfolding_all rfl)
      (by decide)).1 (by rw [hmin0, hmax10]; norm_num) E0
  · exact (iteration_prune flags0 vm0 am0 cfn0 0 cur0 it0 1 3
      (by with_unfolding_all rfl) (by with_unfolding_all rfl)
      (by decide)).2.1 EFail (by rw [hmin0, hmax0]; norm_num) rfl
  · exact (iteration_prune flags0 vm0 am0 cfn0 0 cur0 it0 1 3
      (by with_unfolding_all rfl) (by with_unfolding_all rfl)
      (by decide)).2.2 ESlow 2 (by rw [hmin0, hmax0]; norm_num) rfl
      (by rw [hmax0]; norm_num)

/-!  Splice integrity: positivity of segment durations and strict increase
of cumulative sums. -/

theorem get_pairs_pos : ∀ (l : List ℚ), List.Pairwise (· < ·) l →
    ∀ p ∈ get_pairs l, 0 < p.2 - p.1
  | [], _, p, hp => by simp [get_pairs] at hp
  | [a], _, p, hp => by simp [get_pairs] at hp
  | a :: b :: t, h, p, hp => by
    have hab : a < b := (List.pairwise_cons.mp h).1 b (List.mem_cons_self b t)
    have htl : List.Pairwise (· < ·) (b :: t) := (List.pairwise_cons.mp h).2
    simp only [get_pairs, List.tail_cons, List.zip_cons_cons] at hp
    rcases List.mem_cons.mp hp with heq | hmem
    · subst heq
      simpa using sub_pos.mpr hab
    · exact get_pairs_pos (b :: t) htl p hmem

theorem strictIncB_cumsumAux : ∀ (ds : List ℚ) (acc : ℚ),
    (∀ d ∈ ds, 0 < d) → strictIncB (cumsumAux acc ds) = true
  | [], acc, _ => rfl
  | d :: ds, acc, h => by
    have hd : 0 < d := h d (List.mem_cons_self d ds)
    have hrest : ∀ u ∈ ds, 0 < u := fun u hu => h u (List.mem_cons_of_mem d hu)
    have ih := strictIncB_cumsumAux ds (acc + d) hrest
    cases ds with
    | nil =>
      simp only [cumsumAux, strictIncB, Bool.and_eq_true, decide_eq_true_eq]
      exact ⟨by linarith, trivial⟩
    | cons e es =>
      simp only [cumsumAux] at ih ⊢
      simp only [strictIncB, Bool.and_eq_true, decide_eq_true_eq] at ih ⊢
      exact ⟨by linarith, ih⟩

theorem pairwise_getD_lt (l : List ℚ) (h : List.Pairwise (· < ·) l)
    (i j : ℕ) (hj : j < l.length) (hij : i < j) :
    l.getD i 0 < l.getD j 0 := by
  have hi : i < l.length := lt_trans hij hj
  simp only [List.getD_eq_getElem?_getD, List.getElem?_eq_getElem hi,
    List.getElem?_eq_getElem hj, Option.getD_some]
  exact List.pairwise_iff_getElem.mp h i j hi hj hij

theorem knotBefore_lt_length (times : List ℚ) (t : ℚ) (i : ℕ)
    (hk : knotBefore times t = some i) : i < times.length := by
  have hm := List.mem_of_find?_eq_some hk
  simpa [List.mem_reverse, List.mem_range] using hm

theorem knotAfter_lt_length (times : List ℚ) (t : ℚ) (i : ℕ)
    (hk : knotAfter times t = some i) : i < times.length := by
  have hm := List.mem_of_find?_eq_some hk
  simpa [List.mem_range] using hm

theorem knot_indices_lt (times : List ℚ) (t1 t2 : ℚ) (i1 i2 : ℕ)
    (hsorted : List.Pairwise (· < ·) times)
    (hk1 : knotBefore times t1 = some i1)
    (hk2 : knotAfter times t2 = some i2)
    (h12 : t1 ≤ t2)
    (h1 : times.getD i1 0 < t1)
    (h2 : t2 < times.getD i2 0) :
    i1 < i2 := by
  have hi1 : i1 < times.length := knotBefore_lt_length times t1 i1 hk1
  by_contra hcon
  push_neg at hcon
  rcases lt_or_eq_of_le hcon with hlt | heq
  · have := pairwise_getD_lt times hsorted i2 i1 hi1 hlt
    linarith
  · subst heq
    linarith

theorem new_durations_eq (inter : Bool) (times : List ℚ) (i1 i2 : ℕ)
    (t1 t2 bt : ℚ) (lc : Curve) :
    new_durations inter times i1 i2 t1 t2 bt lc
      = 0 :: (((get_pairs times).map (fun p => p.2 - p.1)).take i1
          ++ spliced_durations inter times i1 i2 t1 t2 bt lc
          ++ ((get_pairs times).map (fun p => p.2 - p.1)).drop i2) := by
  simp [new_durations, curve_durations, List.take_succ_cons,
    List.drop_succ_cons]

/-- Claim C8, amended: for every candidate whose indices come from the
knot searches with sorted knot times and `t1 ≤ t2`, and whose sampled
times fall strictly inside their bracketing knots (`times[i1] < t1` and
`t2 < times[i2]`), with a strictly positive replacement duration (and, in
the intermediate-knot mode, replacement breakpoints strictly above the
replacement curve's start), `i1 < i2` holds strictly and the post-splice
cumulative time sequence is strictly increasing; when `t1` coincides with
knot `i1` (or `t2` with knot `i2`) the spliced sequence repeats a time, as
the counterexample shows. -/
theorem splice_strictly_increasing (inter : Bool) (times : List ℚ)
    (i1 i2 : ℕ) (t1 t2 best_t : ℚ) (lc : Curve)
    (hsorted : List.Pairwise (· < ·) times)
    (hk1 : knotBefore times t1 = some i1)
    (hk2 : knotAfter times t2 = some i2)
    (h12 : t1 ≤ t2)
    (h1 : times.getD i1 0 < t1)
    (h2 : t2 < times.getD i2 0)
    (hbt : 0 < best_t)
    (hlc : ∀ u ∈ lc.x.drop 1, lc.x.headD 0 < u) :
    i1 < i2
    ∧ strictIncB (cumsum (new_durations inter times i1 i2 t1 t2 best_t lc))
        = true := by
  have hdiffs : ∀ d ∈ (get_pairs times).map (fun p => p.2 - p.1), 0 < d := by
    intro d hd
    rcases List.mem_map.mp hd with ⟨p, hp, rfl⟩
    exact get_pairs_pos times hsorted p hp
  have hsd : ∀ d ∈ spliced_durations inter times i1 i2 t1 t2 best_t lc,
      0 < d := by
    intro d hd
    cases inter with
    | false =>
      simp only [spliced_durations, Bool.false_eq_true, if_false,
        List.mem_cons, List.mem_singleton] at hd
      rcases hd with rfl | rfl | rfl | hfalse
      · linarith
      · exact hbt
      · linarith
      · simp at hfalse
    | true =>
      simp only [spliced_durations, if_true, List.mem_cons,
        List.mem_append, List.mem_singleton, List.mem_map] at hd
      rcases hd with rfl | ⟨u, hu, rfl⟩ | rfl | hfalse
      · linarith
      · have := hlc u hu
        linarith
      · linarith
      · simp at hfalse
  refine ⟨knot_indices_lt times t1 t2 i1 i2 hsorted hk1 hk2 h12 h1 h2, ?_⟩
  rw [new_durations_eq]
  refine strictIncB_cumsumAux _ 0 ?_
  intro d hd
  simp only [List.mem_append] at hd
  rcases hd with (hd | hd) | hd
  · exact hdiffs d (List.take_subset i1 _ hd)
  · exact hsd d hd
  · exact hdiffs d (List.drop_subset i2 _ hd)

/-- The witness for the amended C8, with the intermediate-knot mode
enabled and the draw strictly inside the bracketing knots. -/
theorem splice_strictly_increasing_witness :
    (1 : ℕ) < 3
    ∧ strictIncB (cumsum (new_durations true [0, 1, 2, 3] 1 3 (5/4) (5/2)
        (1/2) lc0)) = true :=
  splice_strictly_increasing true [0, 1, 2, 3] 1 3 (5/4) (5/2) (1/2) lc0
    (by norm_num)
    (by with_unfolding_all rfl)
    (by with_unfolding_all rfl)
    (by norm_num)
    (by norm_num [List.getD_cons_succ, List.getD_cons_zero])
    (by norm_num [List.getD_cons_succ, List.getD_cons_zero])
    (by norm_num)
    (by norm_num [lc0, flatCurve])

/-- Counterexample to claim C8 as stated: a candidate is accepted whose
sampled time `t1 = 1` coincides exactly with knot `i1 = 1`, so the spliced
duration `t1 - times[i1]` is `0` and the post-splice knot time sequence
repeats a time instead of being strictly increasing. -/
theorem splice_not_strictly_increasing_cex :
    iteration E0 flags0 vm0 am0 cfn0 0 cur0 it0 = Outcome.accept nc0
    ∧ knotBefore cur0.x (iterT1 it0) = some 1
    ∧ knotAfter cur0.x (iterT2 it0) = some 3
    ∧ strictIncB (cumsum (new_durations false cur0.x 1 3 (iterT1 it0)
        (iterT2 it0) (1/2) lc0)) = false :=
  ⟨by with_unfolding_all rfl, by with_unfolding_all rfl,
   by with_unfolding_all rfl, by with_unfolding_all rfl⟩

/-- The witness for C9 at a concrete feasible curve: the test returns one
of `True` or `None`, and not `False`. -/
theorem curve_collision_fn_never_false_witness :
    (get_curve_collision_fn cfn0 vm0 am0 (some cur0) none none = some true
      ∨ get_curve_collision_fn cfn0 vm0 am0 (some cur0) none none = none)
    ∧ get_curve_collision_fn cfn0 vm0 am0 (some cur0) none none
        ≠ some false :=
  curve_collision_fn_never_false cfn0 vm0 am0 (some cur0) none none
